import Mathlib

/-!
# PicoClaw status command: provider availability and credential status

A shallow embedding of `statusCmd` (`cmd/picoclaw/cmd_status.go`).

Go strings are embedded as Lean `String`s, read as sequences of runes. The only
byte the code searches for is the one-byte separator `/`, which in UTF-8 occurs
only as the encoding of the rune `/`, so positions counted in runes and
positions counted in bytes cut a string at the same places.
-/

namespace PicoClaw

/-! ## Go standard library pieces used by `statusCmd` -/

/-- Rune lowering `unicode.ToLower`: an ASCII rune is lowered by the `A`..`Z`
range test; every other rune is looked up in the Unicode case table `tbl`,
which is not part of the repository and is a parameter of the development. -/
def unicodeToLower (tbl : Char → Char) (r : Char) : Char :=
  if r.toNat ≤ 127 then
    if 65 ≤ r.toNat ∧ r.toNat ≤ 90 then Char.ofNat (r.toNat + 32) else r
  else tbl r

/-- String lowering `strings.ToLower`: maps `unicode.ToLower` over the runes. -/
def stringsToLower (tbl : Char → Char) (s : String) : String :=
  ⟨s.data.map (unicodeToLower tbl)⟩

/-- First position at which `substr` occurs in the rune sequence, if any. -/
def indexAux (substr : List Char) : List Char → Option Nat
  | [] => if substr = [] then some 0 else none
  | c :: cs =>
    if (c :: cs).take substr.length = substr then some 0
    else (indexAux substr cs).map (· + 1)

/-- Substring search `strings.Index`: position of the first occurrence of
`substr` in `s`, or `-1` when there is none. -/
def stringsIndex (s substr : String) : Int :=
  match indexAux substr.data s.data with
  | some i => (i : Int)
  | none => -1

/-- Slice expression `s[:idx]`. -/
def sliceTo (s : String) (idx : Int) : String :=
  ⟨s.data.take idx.toNat⟩

/-- A Go `map[string]bool`, as an association list with one pair per key. -/
abbrev GoMap := List (String × Bool)

/-- Map assignment `m[k] = v`. -/
def mapSet (m : GoMap) (k : String) (v : Bool) : GoMap :=
  (k, v) :: m.filter (fun p => p.1 ≠ k)

/-- Map read `m[k]`; a missing key reads as the zero value `false`. -/
def mapGet (m : GoMap) (k : String) : Bool :=
  match m.lookup k with
  | some v => v
  | none => false

/-- Keys stored in the map. -/
def mapKeys (m : GoMap) : List String :=
  m.map Prod.fst

/-- Every value stored in the map is `true`. -/
def AllTrue (m : GoMap) : Prop := ∀ p ∈ m, p.2 = true

/-- The case table sends no non-ASCII rune to the separator `/`, as holds of
the Unicode table, whose lowercase images are letters. -/
def NoSlashTable (tbl : Char → Char) : Prop :=
  ∀ c : Char, 127 < c.toNat → tbl c ≠ '/'

/-! ## Configuration -/

/-- Legacy per-provider configuration block. -/
structure ProviderConfig where
  APIKey : String
  APIBase : String
deriving DecidableEq

/-- Field `cfg.Providers`: the legacy provider blocks read by `statusCmd`. -/
structure ProvidersConfig where
  OpenRouter : ProviderConfig
  Anthropic : ProviderConfig
  OpenAI : ProviderConfig
  Gemini : ProviderConfig
  Zhipu : ProviderConfig
  Qwen : ProviderConfig
  Groq : ProviderConfig
  VLLM : ProviderConfig
  Moonshot : ProviderConfig
  DeepSeek : ProviderConfig
  VolcEngine : ProviderConfig
  Nvidia : ProviderConfig
  Ollama : ProviderConfig
deriving DecidableEq

/-- One entry of `cfg.ModelList`. -/
structure ModelConfig where
  Model : String
  APIKey : String
deriving DecidableEq

/-- The part of the loaded configuration that the provider report reads. -/
structure Config where
  Providers : ProvidersConfig
  ModelList : List ModelConfig
deriving DecidableEq

/-! ## Provider report of `statusCmd`

The report is printed when the configuration file exists (source line 46); the
definitions below are the computations made inside that branch. -/

/-- Body of the loop over `cfg.ModelList` (source lines 51-76). -/
def addModelProvider (tbl : Char → Char) (modelProviders : GoMap) (model : ModelConfig) : GoMap :=
  if model.APIKey = "" then modelProviders
  else
    let modelStr := stringsToLower tbl model.Model
    let idx := stringsIndex modelStr "/"
    if idx > 0 then
      let provider := sliceTo modelStr idx
      let mp := mapSet modelProviders provider true
      if provider = "doubao" then mapSet mp "volcengine" true
      else if provider = "claude" then mapSet mp "anthropic" true
      else if provider = "gpt" then mapSet mp "openai" true
      else if provider = "tongyi" then mapSet mp "qwen" true
      else if provider = "kimi" then mapSet mp "moonshot" true
      else if provider = "glm" then mapSet mp "zhipu" true
      else mp
    else modelProviders

/-- The map `modelProviders` after the loop over the model list. -/
def buildModelProviders (tbl : Char → Char) (modelList : List ModelConfig) : GoMap :=
  modelList.foldl (addModelProvider tbl) []

/-- The thirteen flags computed at source lines 79-91. -/
structure ProviderFlags where
  hasOpenRouter : Bool
  hasAnthropic : Bool
  hasOpenAI : Bool
  hasGemini : Bool
  hasZhipu : Bool
  hasQwen : Bool
  hasGroq : Bool
  hasVLLM : Bool
  hasMoonshot : Bool
  hasDeepSeek : Bool
  hasVolcEngine : Bool
  hasNvidia : Bool
  hasOllama : Bool
deriving DecidableEq

/-- Legacy-or-model-list check of each provider (source lines 79-91). -/
def providerFlags (tbl : Char → Char) (cfg : Config) : ProviderFlags :=
  let modelProviders := buildModelProviders tbl cfg.ModelList
  { hasOpenRouter := decide (cfg.Providers.OpenRouter.APIKey ≠ "") || mapGet modelProviders "openrouter"
    hasAnthropic := decide (cfg.Providers.Anthropic.APIKey ≠ "") || mapGet modelProviders "anthropic"
    hasOpenAI := decide (cfg.Providers.OpenAI.APIKey ≠ "") || mapGet modelProviders "openai"
    hasGemini := decide (cfg.Providers.Gemini.APIKey ≠ "") || mapGet modelProviders "gemini"
    hasZhipu := decide (cfg.Providers.Zhipu.APIKey ≠ "") || mapGet modelProviders "zhipu"
    hasQwen := decide (cfg.Providers.Qwen.APIKey ≠ "") || mapGet modelProviders "qwen"
    hasGroq := decide (cfg.Providers.Groq.APIKey ≠ "") || mapGet modelProviders "groq"
    hasVLLM := decide (cfg.Providers.VLLM.APIBase ≠ "") || mapGet modelProviders "vllm"
    hasMoonshot := decide (cfg.Providers.Moonshot.APIKey ≠ "") || mapGet modelProviders "moonshot"
    hasDeepSeek := decide (cfg.Providers.DeepSeek.APIKey ≠ "") || mapGet modelProviders "deepseek"
    hasVolcEngine := decide (cfg.Providers.VolcEngine.APIKey ≠ "") || mapGet modelProviders "volcengine"
    hasNvidia := decide (cfg.Providers.Nvidia.APIKey ≠ "") || mapGet modelProviders "nvidia"
    hasOllama := decide (cfg.Providers.Ollama.APIBase ≠ "") || mapGet modelProviders "ollama" }

/-- A provider block with both fields empty. -/
def emptyProvider : ProviderConfig := ⟨"", ""⟩

/-- The legacy section with no provider configured. -/
def noProviders : ProvidersConfig :=
  { OpenRouter := emptyProvider, Anthropic := emptyProvider, OpenAI := emptyProvider
    Gemini := emptyProvider, Zhipu := emptyProvider, Qwen := emptyProvider
    Groq := emptyProvider, VLLM := emptyProvider, Moonshot := emptyProvider
    DeepSeek := emptyProvider, VolcEngine := emptyProvider, Nvidia := emptyProvider
    Ollama := emptyProvider }

/-- A case table with no non-ASCII case pairs; ASCII runes never consult it. -/
def asciiTable : Char → Char := fun r => r

/-- The displayed providers, one per report line (source lines 99-119). -/
inductive Provider where
  | openrouter | anthropic | openai | gemini | zhipu | qwen | groq
  | vllm | moonshot | deepseek | volcengine | nvidia | ollama
deriving DecidableEq

/-- Map key under which line 79-91 looks the provider up in `modelProviders`. -/
def Provider.name : Provider → String
  | .openrouter => "openrouter"
  | .anthropic => "anthropic"
  | .openai => "openai"
  | .gemini => "gemini"
  | .zhipu => "zhipu"
  | .qwen => "qwen"
  | .groq => "groq"
  | .vllm => "vllm"
  | .moonshot => "moonshot"
  | .deepseek => "deepseek"
  | .volcengine => "volcengine"
  | .nvidia => "nvidia"
  | .ollama => "ollama"

/-- Flag whose value the report line of the provider prints (source lines 99-119). -/
def ProviderFlags.reported (f : ProviderFlags) : Provider → Bool
  | .openrouter => f.hasOpenRouter
  | .anthropic => f.hasAnthropic
  | .openai => f.hasOpenAI
  | .gemini => f.hasGemini
  | .zhipu => f.hasZhipu
  | .qwen => f.hasQwen
  | .groq => f.hasGroq
  | .vllm => f.hasVLLM
  | .moonshot => f.hasMoonshot
  | .deepseek => f.hasDeepSeek
  | .volcengine => f.hasVolcEngine
  | .nvidia => f.hasNvidia
  | .ollama => f.hasOllama

/-- Legacy block of a provider inside `cfg.Providers`. -/
def Provider.block (cfg : Config) : Provider → ProviderConfig
  | .openrouter => cfg.Providers.OpenRouter
  | .anthropic => cfg.Providers.Anthropic
  | .openai => cfg.Providers.OpenAI
  | .gemini => cfg.Providers.Gemini
  | .zhipu => cfg.Providers.Zhipu
  | .qwen => cfg.Providers.Qwen
  | .groq => cfg.Providers.Groq
  | .vllm => cfg.Providers.VLLM
  | .moonshot => cfg.Providers.Moonshot
  | .deepseek => cfg.Providers.DeepSeek
  | .volcengine => cfg.Providers.VolcEngine
  | .nvidia => cfg.Providers.Nvidia
  | .ollama => cfg.Providers.Ollama

/-- Configuration with an empty model list whose only legacy setting is the
OpenAI API key. -/
def onlyOpenAIKey (key : String) : Config :=
  ⟨{ noProviders with OpenAI := ⟨key, ""⟩ }, []⟩

/-- Configuration with an empty model list whose only legacy setting is the
vLLM API key. -/
def onlyVLLMKey (key : String) : Config :=
  ⟨{ noProviders with VLLM := ⟨key, ""⟩ }, []⟩

/-- Configuration with an empty model list whose only legacy setting is the
Ollama base URL. -/
def onlyOllamaBase (base : String) : Config :=
  ⟨{ noProviders with Ollama := ⟨"", base⟩ }, []⟩

/-- Model list of the first example scenario of the specification. -/
def doubaoScenario : List ModelConfig :=
  [⟨"doubao/ernie-4", "k1"⟩, ⟨"gpt/4o", ""⟩]

/-! ## The specification's vocabulary -/

/-- Providers the specification calls base-URL-addressed: vLLM and Ollama. -/
def Provider.baseURLAddressed : Provider → Bool
  | .vllm => true
  | .ollama => true
  | _ => false

/-- Legacy field the specification names for a provider: the API base URL for
the base-URL-addressed providers, the API key for the other eleven. -/
def Provider.legacyField (cfg : Config) (X : Provider) : String :=
  if X.baseURLAddressed then (X.block cfg).APIBase else (X.block cfg).APIKey

/-- Alias token of a provider in the specification's alias list
(claude, gpt, tongyi, kimi, glm, doubao). -/
def Provider.aliasToken : Provider → Option String
  | .anthropic => some "claude"
  | .openai => some "gpt"
  | .qwen => some "tongyi"
  | .moonshot => some "kimi"
  | .zhipu => some "glm"
  | .volcengine => some "doubao"
  | _ => none

/-- Alias table of the specification, read from token to canonical provider. -/
def aliasTarget (token : String) : Option String :=
  if token = "doubao" then some "volcengine"
  else if token = "claude" then some "anthropic"
  else if token = "gpt" then some "openai"
  else if token = "tongyi" then some "qwen"
  else if token = "kimi" then some "moonshot"
  else if token = "glm" then some "zhipu"
  else none

/-- Text before the first `/` of an identifier; nothing when there is no `/`. -/
def tokenBeforeSlash (s : String) : Option String :=
  if '/' ∈ s.data then some ⟨s.data.takeWhile (fun c => c ≠ '/')⟩ else none

/-- Provider facts the specification attributes to one model entry: none for an
empty key, a missing separator or an empty token; otherwise the lowercased
token and its alias target. -/
def entryKeys (tbl : Char → Char) (e : ModelConfig) : List String :=
  if e.APIKey = "" then []
  else
    match tokenBeforeSlash (stringsToLower tbl e.Model) with
    | none => []
    | some p => if p = "" then [] else p :: (aliasTarget p).toList

/-- Two identifiers that differ only in letter case: rune by rune they have
the same lowercase form. -/
def SameUpToCase (tbl : Char → Char) (m m' : String) : Prop :=
  List.Forall₂ (fun a b => unicodeToLower tbl a = unicodeToLower tbl b) m.data m'.data

/-! ## Credential report of `statusCmd` -/

/-- Modelled from the spec: the auth method of a stored credential, declared in
package `pkg/auth`, which is not among the sources; the specification gives it
the two values api-key and oauth-token. -/
inductive AuthMethod where
  | apiKey
  | oauthToken
deriving DecidableEq

/-- Modelled from the spec: the credential record of package `pkg/auth`, with
the provider, the auth method, the expiry timestamp and the refresh-eligibility
timestamp (seconds). A timestamp may be undefined (`none`), as section 4.3 says
of static-API-key credentials. The token material plays no part in the status. -/
structure AuthCredential where
  Provider : String
  AuthMethod : AuthMethod
  ExpiresAt : Option Int
  RefreshAt : Option Int
deriving DecidableEq

/-- Modelled from the spec: the well-formed store input that section 4.3
assumes; for a static-API-key credential expiry and refresh are undefined. -/
def WellFormed (cred : AuthCredential) : Prop :=
  cred.AuthMethod = AuthMethod.apiKey → cred.ExpiresAt = none ∧ cred.RefreshAt = none

/-- Modelled from the spec: the test `now >= timestamp` of section 4.3; it
fails for an undefined timestamp. -/
def timestampReached (now : Int) : Option Int → Bool
  | some t => decide (t ≤ now)
  | none => false

/-- Modelled from the spec: method `IsExpired` of package `pkg/auth`, with the
clock reading passed explicitly; expired means `now >= expiry`. -/
def IsExpired (now : Int) (cred : AuthCredential) : Bool :=
  timestampReached now cred.ExpiresAt

/-- Modelled from the spec: method `NeedsRefresh` of package `pkg/auth`, with
the clock reading passed explicitly; it holds once `now` has reached the
refresh-eligibility threshold that opens the lookahead window before expiry. -/
def NeedsRefresh (now : Int) (cred : AuthCredential) : Bool :=
  timestampReached now cred.RefreshAt

/-- Status text chosen for one stored credential (source lines 125-130); the
two methods of the credential are parameters. -/
def credentialStatus {Cred : Type} (isExpired needsRefresh : Cred → Bool) (cred : Cred) : String :=
  if isExpired cred then "expired"
  else if needsRefresh cred then "needs refresh"
  else "authenticated"

/-- Status text of a credential of the modelled `pkg/auth` at clock reading `now`. -/
def statusAt (now : Int) (cred : AuthCredential) : String :=
  credentialStatus (IsExpired now) (NeedsRefresh now) cred

/-- Position of a status text in the lifecycle order
fresh ("authenticated") < needsRefresh ("needs refresh") < expired. -/
def lifecycleRank (status : String) : Nat :=
  if status = "authenticated" then 0
  else if status = "needs refresh" then 1
  else 2

/-- A stored static-API-key credential; its expiry and refresh are undefined. -/
def staticKeyCredential : AuthCredential :=
  ⟨"openai", AuthMethod.apiKey, none, none⟩

/-- The credential of the third example scenario, with expiry `T` and refresh
threshold `T - 600`. -/
def scenarioCredential (T : Int) : AuthCredential :=
  ⟨"anthropic", AuthMethod.oauthToken, some T, some (T - 600)⟩

/-! ## Lemmas on the standard library pieces -/

theorem unicodeToLower_slash (tbl : Char → Char) : unicodeToLower tbl '/' = '/' := by
  simp [unicodeToLower]

theorem unicodeToLower_ne_slash (tbl : Char → Char) (htbl : NoSlashTable tbl) (c : Char)
    (hc : c ≠ '/') : unicodeToLower tbl c ≠ '/' := by
  unfold unicodeToLower
  split_ifs with h1 h2
  · obtain ⟨n, hn⟩ : ∃ n, c.toNat = n := ⟨_, rfl⟩
    rw [hn] at h2 ⊢
    obtain ⟨h3, h4⟩ := h2
    interval_cases n <;> decide
  · exact hc
  · exact htbl c (by omega)

theorem map_lower_mem_slash (tbl : Char → Char) (htbl : NoSlashTable tbl) (l : List Char) :
    '/' ∈ l.map (unicodeToLower tbl) ↔ '/' ∈ l := by
  constructor
  · intro h
    obtain ⟨c, hc, hcl⟩ := List.mem_map.1 h
    by_cases h1 : c = '/'
    · exact h1 ▸ hc
    · exact absurd hcl (unicodeToLower_ne_slash tbl htbl c h1)
  · intro h
    exact List.mem_map.2 ⟨'/', h, unicodeToLower_slash tbl⟩

theorem map_lower_takeWhile (tbl : Char → Char) (htbl : NoSlashTable tbl) (l : List Char) :
    (l.map (unicodeToLower tbl)).takeWhile (fun c => c ≠ '/')
      = (l.takeWhile (fun c => c ≠ '/')).map (unicodeToLower tbl) := by
  induction l with
  | nil => rfl
  | cons c cs ih =>
    by_cases h1 : c = '/'
    · subst h1
      simp [List.takeWhile, unicodeToLower_slash]
    · have h2 := unicodeToLower_ne_slash tbl htbl c h1
      simp only [decide_not] at ih
      simp [List.takeWhile, h1, h2, ih]

theorem indexAux_slash_nil_of_not_mem (s : List Char) (h : '/' ∉ s) :
    indexAux ['/'] s = none := by
  induction s with
  | nil => simp [indexAux]
  | cons c cs ih =>
    have h1 : c ≠ '/' := fun hc => h (by simp [hc])
    have h2 : '/' ∉ cs := fun hc => h (by simp [hc])
    simp [indexAux, h1, ih h2]

theorem indexAux_slash_of_mem (s : List Char) (h : '/' ∈ s) :
    indexAux ['/'] s = some (s.takeWhile (fun c => c ≠ '/')).length := by
  induction s with
  | nil => simp at h
  | cons c cs ih =>
    by_cases h1 : c = '/'
    · subst h1
      simp [indexAux, List.takeWhile]
    · have h2 : '/' ∈ cs := by
        rcases List.mem_cons.1 h with h3 | h3
        · exact absurd h3.symm h1
        · exact h3
      simp [indexAux, h1, ih h2, List.takeWhile]

theorem take_length_takeWhile (s : List Char) (q : Char → Bool) :
    s.take (s.takeWhile q).length = s.takeWhile q := by
  induction s with
  | nil => rfl
  | cons c cs ih =>
    by_cases h : q c = true
    · simp [List.takeWhile, h, ih]
    · simp [List.takeWhile, h]

/-- The search-and-slice of lines 57-58 computes the text before the first `/`. -/
theorem index_slice_token (s : String) :
    (tokenBeforeSlash s = none ∧ stringsIndex s "/" = -1) ∨
    (∃ p, tokenBeforeSlash s = some p ∧ stringsIndex s "/" = (p.data.length : Int)
      ∧ sliceTo s (stringsIndex s "/") = p) := by
  by_cases h : '/' ∈ s.data
  · right
    refine ⟨⟨s.data.takeWhile (fun c => c ≠ '/')⟩, ?_, ?_, ?_⟩
    · simp [tokenBeforeSlash, h]
    · have h1 : ("/" : String).data = ['/'] := rfl
      simp only [stringsIndex, h1, indexAux_slash_of_mem s.data h]
    · have h1 : ("/" : String).data = ['/'] := rfl
      simp only [stringsIndex, h1, indexAux_slash_of_mem s.data h, sliceTo, Int.toNat_ofNat,
        take_length_takeWhile]
  · left
    refine ⟨?_, ?_⟩
    · simp [tokenBeforeSlash, h]
    · have h1 : ("/" : String).data = ['/'] := rfl
      simp only [stringsIndex, h1, indexAux_slash_nil_of_not_mem s.data h]

/-! ## Lemmas on the map and on the loop -/

theorem mem_mapKeys_mapSet (m : GoMap) (k k' : String) (v : Bool) :
    k ∈ mapKeys (mapSet m k' v) ↔ k = k' ∨ k ∈ mapKeys m := by
  simp only [mapKeys, mapSet, List.map_cons, List.mem_cons, List.mem_map, List.mem_filter]
  constructor
  · rintro (h | ⟨a, ⟨ha, -⟩, rfl⟩)
    · exact Or.inl h
    · exact Or.inr ⟨a, ha, rfl⟩
  · rintro (h | ⟨a, ha, rfl⟩)
    · exact Or.inl h
    · by_cases h1 : a.1 = k'
      · exact Or.inl h1
      · exact Or.inr ⟨a, ⟨ha, by simpa using h1⟩, rfl⟩

theorem allTrue_mapSet (m : GoMap) (k : String) (h : AllTrue m) : AllTrue (mapSet m k true) := by
  intro p hp
  simp only [mapSet, List.mem_cons, List.mem_filter] at hp
  rcases hp with rfl | ⟨hp, -⟩
  · rfl
  · exact h p hp

theorem mapGet_eq_true_iff (m : GoMap) (h : AllTrue m) (k : String) :
    mapGet m k = true ↔ k ∈ mapKeys m := by
  induction m with
  | nil => simp [mapGet, mapKeys, List.lookup]
  | cons p ps ih =>
    obtain ⟨a, b⟩ := p
    have hb : b = true := h (a, b) (List.mem_cons_self _ _)
    have hps : AllTrue ps := fun q hq => h q (List.mem_cons_of_mem _ hq)
    have ih1 := ih hps
    by_cases hk : k = a
    · subst hk
      simp [mapGet, mapKeys, List.lookup, hb]
    · have hk1 : (k == a) = false := by simpa using hk
      simp only [mapGet, List.lookup, hk1, mapKeys, List.map_cons, List.mem_cons, hk, false_or]
      simpa [mapGet, mapKeys] using ih1

/-- The loop body marks exactly the provider facts of the entry, in order. -/
theorem addModelProvider_eq (tbl : Char → Char) (mp : GoMap) (e : ModelConfig) :
    addModelProvider tbl mp e = (entryKeys tbl e).foldl (fun m k => mapSet m k true) mp := by
  unfold addModelProvider entryKeys
  by_cases hkey : e.APIKey = ""
  · simp [hkey]
  · simp only [hkey, if_false]
    rcases index_slice_token (stringsToLower tbl e.Model) with ⟨h1, h2⟩ | ⟨p, h1, h2, h3⟩
    · simp [h1, h2]
    · simp only [h1, h3]
      by_cases hp : p = ""
      · have h4 : p.data.length = 0 := by simp [hp]
        simp [h2, h4, hp]
      · have h4 : 0 < p.data.length := by
          rcases p with ⟨l⟩
          cases l with
          | nil => exact absurd rfl hp
          | cons c cs => simp
        have h5 : (stringsIndex (stringsToLower tbl e.Model) "/" > 0) := by
          rw [h2]; exact_mod_cast h4
        simp only [h5, if_true, hp, if_false, aliasTarget]
        split_ifs <;> rfl

theorem allTrue_foldl_mapSet (ks : List String) (m : GoMap) (h : AllTrue m) :
    AllTrue (ks.foldl (fun m k => mapSet m k true) m) := by
  induction ks generalizing m with
  | nil => exact h
  | cons k ks ih => exact ih _ (allTrue_mapSet m k h)

theorem mem_mapKeys_foldl_mapSet (ks : List String) (m : GoMap) (k : String) :
    k ∈ mapKeys (ks.foldl (fun m k => mapSet m k true) m) ↔ k ∈ ks ∨ k ∈ mapKeys m := by
  induction ks generalizing m with
  | nil => simp
  | cons a ks ih =>
    simp only [List.foldl_cons, ih, mem_mapKeys_mapSet, List.mem_cons]
    tauto

theorem allTrue_foldl_add (tbl : Char → Char) (l : List ModelConfig) (m : GoMap) (h : AllTrue m) :
    AllTrue (l.foldl (addModelProvider tbl) m) := by
  induction l generalizing m with
  | nil => exact h
  | cons e l ih =>
    rw [List.foldl_cons, addModelProvider_eq]
    exact ih _ (allTrue_foldl_mapSet _ m h)

theorem mem_mapKeys_foldl_add (tbl : Char → Char) (l : List ModelConfig) (m : GoMap) (k : String) :
    k ∈ mapKeys (l.foldl (addModelProvider tbl) m)
      ↔ k ∈ mapKeys m ∨ ∃ e ∈ l, k ∈ entryKeys tbl e := by
  induction l generalizing m with
  | nil => simp
  | cons e l ih =>
    rw [List.foldl_cons, ih, addModelProvider_eq, mem_mapKeys_foldl_mapSet]
    simp only [List.mem_cons, exists_eq_or_imp]
    tauto

theorem allTrue_build (tbl : Char → Char) (l : List ModelConfig) :
    AllTrue (buildModelProviders tbl l) :=
  allTrue_foldl_add tbl l [] (fun _ h => absurd h (List.not_mem_nil _))

theorem mem_mapKeys_build (tbl : Char → Char) (l : List ModelConfig) (k : String) :
    k ∈ mapKeys (buildModelProviders tbl l) ↔ ∃ e ∈ l, k ∈ entryKeys tbl e := by
  unfold buildModelProviders
  rw [mem_mapKeys_foldl_add]
  simp [mapKeys]

theorem mapGet_build (tbl : Char → Char) (l : List ModelConfig) (k : String) :
    mapGet (buildModelProviders tbl l) k = true ↔ ∃ e ∈ l, k ∈ entryKeys tbl e := by
  rw [mapGet_eq_true_iff _ (allTrue_build tbl l), mem_mapKeys_build]

theorem asciiTable_noSlash : NoSlashTable asciiTable := by
  intro c hc h
  have h1 : c = '/' := h
  rw [h1] at hc
  revert hc
  decide

theorem map_eq_of_forall₂ (f : Char → Char) (l l' : List Char)
    (h : List.Forall₂ (fun a b => f a = f b) l l') : l.map f = l'.map f := by
  induction h with
  | nil => rfl
  | cons hab _ ih => simp [hab, ih]

theorem stringsToLower_eq_of_sameUpToCase (tbl : Char → Char) (m m' : String)
    (h : SameUpToCase tbl m m') : stringsToLower tbl m = stringsToLower tbl m' := by
  unfold stringsToLower
  rw [map_eq_of_forall₂ _ _ _ h]

theorem tokenBeforeSlash_lower (tbl : Char → Char) (htbl : NoSlashTable tbl) (m : String) :
    tokenBeforeSlash (stringsToLower tbl m) = (tokenBeforeSlash m).map (stringsToLower tbl) := by
  unfold tokenBeforeSlash
  by_cases h : '/' ∈ m.data
  · have h1 : '/' ∈ (stringsToLower tbl m).data := (map_lower_mem_slash tbl htbl m.data).2 h
    simp only [h, h1, if_true, Option.map_some']
    simp only [stringsToLower, map_lower_takeWhile tbl htbl]
  · have h1 : '/' ∉ (stringsToLower tbl m).data :=
      fun h2 => h ((map_lower_mem_slash tbl htbl m.data).1 h2)
    simp [h, h1]

theorem mem_entryKeys (tbl : Char → Char) (e : ModelConfig) (k : String) :
    k ∈ entryKeys tbl e ↔
      e.APIKey ≠ "" ∧ ∃ p, tokenBeforeSlash (stringsToLower tbl e.Model) = some p ∧ p ≠ ""
        ∧ (k = p ∨ aliasTarget p = some k) := by
  unfold entryKeys
  by_cases hkey : e.APIKey = ""
  · simp [hkey]
  · cases ht : tokenBeforeSlash (stringsToLower tbl e.Model) with
    | none => simp [hkey]
    | some p =>
      by_cases hp : p = ""
      · simp [hkey, hp]
      · simp only [hkey, if_false, hp, List.mem_cons, Option.mem_toList, Option.mem_def,
          ne_eq, not_false_eq_true, true_and, Option.some.injEq, exists_eq_left']

theorem aliasTarget_name (X : Provider) (p : String) :
    aliasTarget p = some X.name ↔ some p = X.aliasToken := by
  cases X <;> simp only [aliasTarget, Provider.name, Provider.aliasToken] <;>
    split_ifs <;> simp_all

theorem reported_eq (tbl : Char → Char) (cfg : Config) (X : Provider) :
    (providerFlags tbl cfg).reported X
      = (decide (X.legacyField cfg ≠ "") || mapGet (buildModelProviders tbl cfg.ModelList) X.name) := by
  cases X <;> rfl

/-! ## Provider availability -/

/-- C1: each of the thirteen reported providers is reported available exactly
when its legacy field (API base for vllm and ollama, API key for the others) is
non-empty or some model-list entry with a non-empty key has a non-empty
lowercased text before its first `/` equal to the provider name or to its alias
token; and with an empty model list and only the OpenAI API key set, openai is
the one provider reported available. -/
theorem provider_available_iff :
    (∀ (tbl : Char → Char) (cfg : Config) (X : Provider),
      (providerFlags tbl cfg).reported X = true ↔
        (X.legacyField cfg ≠ "" ∨
          ∃ e ∈ cfg.ModelList, e.APIKey ≠ "" ∧
            ∃ p, tokenBeforeSlash (stringsToLower tbl e.Model) = some p ∧ p ≠ "" ∧
              (p = X.name ∨ some p = X.aliasToken))) ∧
    (∀ (tbl : Char → Char) (key : String), key ≠ "" →
      ∀ Y : Provider, (providerFlags tbl (onlyOpenAIKey key)).reported Y = decide (Y = Provider.openai)) := by
  refine ⟨?_, ?_⟩
  · intro tbl cfg X
    rw [reported_eq, Bool.or_eq_true, decide_eq_true_eq, mapGet_build]
    refine or_congr Iff.rfl ?_
    refine exists_congr fun e => and_congr Iff.rfl ?_
    rw [mem_entryKeys]
    refine and_congr Iff.rfl (exists_congr fun p => and_congr Iff.rfl (and_congr Iff.rfl ?_))
    rw [aliasTarget_name]
    refine or_congr ?_ Iff.rfl
    exact eq_comm
  · intro tbl key hkey Y
    cases Y <;>
      simp [providerFlags, ProviderFlags.reported, onlyOpenAIKey, noProviders, emptyProvider,
        buildModelProviders, mapGet, hkey]

/-- Instance of C1: only `OpenAI.APIKey` set to a sample key and an empty model
list give the openai line set and the anthropic line not set. -/
theorem provider_available_iff_witness :
    ("sk-test" : String) ≠ "" ∧
    (providerFlags asciiTable (onlyOpenAIKey "sk-test")).reported Provider.openai = true ∧
    (providerFlags asciiTable (onlyOpenAIKey "sk-test")).reported Provider.anthropic = false :=
  ⟨by decide,
   provider_available_iff.2 asciiTable "sk-test" (by decide) Provider.openai,
   provider_available_iff.2 asciiTable "sk-test" (by decide) Provider.anthropic⟩

/-- C2, as stated, fails: with only the legacy vLLM API key set and no base
URL, vLLM is reported as not set. -/
theorem legacy_key_vllm_not_available :
    (Provider.vllm.block (onlyVLLMKey "k")).APIKey ≠ "" ∧
    (providerFlags asciiTable (onlyVLLMKey "k")).reported Provider.vllm = false := by
  decide

/-- C2, amended: whatever the model list holds, a key-addressed provider is
reported available whenever its legacy API key is non-empty, and a
base-URL-addressed provider (vLLM, Ollama) whenever its legacy API base URL is
non-empty. -/
theorem legacy_field_available (tbl : Char → Char) (cfg : Config) (X : Provider)
    (h : (if X.baseURLAddressed then (X.block cfg).APIBase else (X.block cfg).APIKey) ≠ "") :
    (providerFlags tbl cfg).reported X = true := by
  rw [reported_eq, Bool.or_eq_true, decide_eq_true_eq]
  exact Or.inl h

/-- Instance of the amended C2: the fourth example scenario, Ollama configured
by its base URL alone. -/
theorem legacy_field_available_witness :
    (providerFlags asciiTable (onlyOllamaBase "http://localhost:11434")).reported Provider.ollama = true :=
  legacy_field_available asciiTable (onlyOllamaBase "http://localhost:11434") Provider.ollama
    (by decide)

/-- C3: a model entry with an empty API key, whatever its identifier and
wherever it is inserted in the model list, leaves the model-derived provider
set and all thirteen flags as they are without it; in the first example
scenario neither gpt nor openai is marked. -/
theorem empty_key_entry_ignored :
    (∀ (tbl : Char → Char) (model : String) (front back : List ModelConfig)
        (providers : ProvidersConfig),
      buildModelProviders tbl (front ++ ⟨model, ""⟩ :: back) = buildModelProviders tbl (front ++ back) ∧
      providerFlags tbl ⟨providers, front ++ ⟨model, ""⟩ :: back⟩
        = providerFlags tbl ⟨providers, front ++ back⟩) ∧
    ("gpt" ∉ mapKeys (buildModelProviders asciiTable doubaoScenario) ∧
     "openai" ∉ mapKeys (buildModelProviders asciiTable doubaoScenario) ∧
     mapGet (buildModelProviders asciiTable doubaoScenario) "gpt" = false ∧
     mapGet (buildModelProviders asciiTable doubaoScenario) "openai" = false) := by
  refine ⟨?_, by decide⟩
  intro tbl model front back providers
  have h : buildModelProviders tbl (front ++ ⟨model, ""⟩ :: back)
      = buildModelProviders tbl (front ++ back) := by
    simp [buildModelProviders, List.foldl_append, addModelProvider]
  exact ⟨h, by simp only [providerFlags, h]⟩

theorem entryKeys_nil_of_malformed (tbl : Char → Char) (htbl : NoSlashTable tbl)
    (model key : String) (h : '/' ∉ model.data ∨ model.data.head? = some '/') :
    entryKeys tbl ⟨model, key⟩ = [] := by
  unfold entryKeys
  by_cases hkey : key = ""
  · simp [hkey]
  · simp only [hkey, if_false]
    rw [tokenBeforeSlash_lower tbl htbl]
    rcases h with h | h
    · simp [tokenBeforeSlash, h]
    · rcases model with ⟨l⟩
      cases l with
      | nil => simp at h
      | cons c cs =>
        have hc : c = '/' := by simpa using h
        subst hc
        have h1 : tokenBeforeSlash ⟨'/' :: cs⟩ = some "" := by
          simp [tokenBeforeSlash, List.takeWhile]
        have h2 : stringsToLower tbl "" = "" := rfl
        simp [h1, h2]

theorem lower_doubao (tbl : Char → Char) (x : String) :
    tokenBeforeSlash (stringsToLower tbl ("doubao/" ++ x)) = some "doubao" := by
  have h1 : (stringsToLower tbl ("doubao/" ++ x)).data
      = 'd' :: 'o' :: 'u' :: 'b' :: 'a' :: 'o' :: '/' :: x.data.map (unicodeToLower tbl) := by
    simp [stringsToLower, String.data_append, unicodeToLower]
  unfold tokenBeforeSlash
  rw [h1]
  simp [List.takeWhile]

/-- C4: a model entry whose identifier has no `/`, or starts with `/`, adds no
key to the model-derived provider set and changes none of the thirteen flags,
even with a non-empty API key and wherever it stands in the model list. -/
theorem malformed_identifier_ignored (tbl : Char → Char) (htbl : NoSlashTable tbl)
    (model key : String) (h : '/' ∉ model.data ∨ model.data.head? = some '/')
    (front back : List ModelConfig) (providers : ProvidersConfig) :
    buildModelProviders tbl (front ++ ⟨model, key⟩ :: back) = buildModelProviders tbl (front ++ back) ∧
    providerFlags tbl ⟨providers, front ++ ⟨model, key⟩ :: back⟩
      = providerFlags tbl ⟨providers, front ++ back⟩ := by
  have h1 : buildModelProviders tbl (front ++ ⟨model, key⟩ :: back)
      = buildModelProviders tbl (front ++ back) := by
    simp only [buildModelProviders, List.foldl_append, List.foldl_cons]
    rw [addModelProvider_eq, entryKeys_nil_of_malformed tbl htbl model key h]
    rfl
  exact ⟨h1, by simp only [providerFlags, h1]⟩

/-- Instance of C4: an identifier without separator after a well-formed entry,
and an identifier that starts with the separator. -/
theorem malformed_identifier_ignored_witness :
    (buildModelProviders asciiTable ([⟨"gpt/4o", "k"⟩] ++ ⟨"openai", "k2"⟩ :: [])
        = buildModelProviders asciiTable ([⟨"gpt/4o", "k"⟩] ++ []) ∧
      providerFlags asciiTable ⟨noProviders, [⟨"gpt/4o", "k"⟩] ++ ⟨"openai", "k2"⟩ :: []⟩
        = providerFlags asciiTable ⟨noProviders, [⟨"gpt/4o", "k"⟩] ++ []⟩) ∧
    (buildModelProviders asciiTable ([] ++ ⟨"/openai", "k2"⟩ :: [])
        = buildModelProviders asciiTable ([] ++ []) ∧
      providerFlags asciiTable ⟨noProviders, [] ++ ⟨"/openai", "k2"⟩ :: []⟩
        = providerFlags asciiTable ⟨noProviders, [] ++ []⟩) :=
  ⟨malformed_identifier_ignored asciiTable asciiTable_noSlash "openai" "k2"
      (Or.inl (by decide)) [⟨"gpt/4o", "k"⟩] [] noProviders,
   malformed_identifier_ignored asciiTable asciiTable_noSlash "/openai" "k2"
      (Or.inr (by decide)) [] [] noProviders⟩

/-- C5: for an identifier `m` with a non-empty text before its first `/` and an
identifier `m'` that differs from it only in letter case, the entries `(m, k)`
and `(m', k)` with the same non-empty key change the model-derived provider set
in the same way, adding exactly the lowercased text before the `/` and its
alias target; and lowercasing before cutting at the `/` gives the same token as
cutting before lowercasing. -/
theorem resolution_case_insensitive (tbl : Char → Char) (htbl : NoSlashTable tbl)
    (m m' k : String) (hk : k ≠ "")
    (hpre : ∃ p, tokenBeforeSlash m = some p ∧ p ≠ "")
    (hcase : SameUpToCase tbl m m') :
    (∀ mp : GoMap, addModelProvider tbl mp ⟨m, k⟩ = addModelProvider tbl mp ⟨m', k⟩) ∧
    (∃ p, tokenBeforeSlash m = some p ∧
      ∀ (mp : GoMap) (key : String),
        key ∈ mapKeys (addModelProvider tbl mp ⟨m', k⟩) ↔
          key = stringsToLower tbl p ∨ aliasTarget (stringsToLower tbl p) = some key
            ∨ key ∈ mapKeys mp) ∧
    tokenBeforeSlash (stringsToLower tbl m) = (tokenBeforeSlash m).map (stringsToLower tbl) ∧
    tokenBeforeSlash (stringsToLower tbl m') = (tokenBeforeSlash m).map (stringsToLower tbl) := by
  have hlow := stringsToLower_eq_of_sameUpToCase tbl m m' hcase
  have htok := tokenBeforeSlash_lower tbl htbl m
  have hsame : ∀ mp : GoMap, addModelProvider tbl mp ⟨m, k⟩ = addModelProvider tbl mp ⟨m', k⟩ := by
    intro mp
    simp only [addModelProvider, hlow]
  refine ⟨hsame, ?_, htok, hlow ▸ htok⟩
  obtain ⟨p, hp, hne⟩ := hpre
  refine ⟨p, hp, ?_⟩
  intro mp key
  have hne' : stringsToLower tbl p ≠ "" := by
    rcases p with ⟨l⟩
    cases l with
    | nil => exact absurd rfl hne
    | cons c cs =>
      intro h
      have h2 := congrArg String.data h
      simp [stringsToLower] at h2
  rw [← hsame mp, addModelProvider_eq, mem_mapKeys_foldl_mapSet, mem_entryKeys]
  simp only [htok, hp, Option.map_some', Option.some.injEq, exists_eq_left', ne_eq, hk,
    not_false_eq_true, true_and, hne']
  tauto

/-- Instance of C5: `GPT/x` and `gpt/x` under the same key change the empty
map in the same way, and both mark gpt and openai. -/
theorem resolution_case_insensitive_witness :
    addModelProvider asciiTable [] ⟨"GPT/x", "k"⟩ = addModelProvider asciiTable [] ⟨"gpt/x", "k"⟩ ∧
    mapKeys (addModelProvider asciiTable [] ⟨"GPT/x", "k"⟩) = ["openai", "gpt"] ∧
    mapKeys (addModelProvider asciiTable [] ⟨"gpt/x", "k"⟩) = ["openai", "gpt"] :=
  ⟨(resolution_case_insensitive asciiTable asciiTable_noSlash "GPT/x" "gpt/x" "k" (by decide)
      ⟨"GPT", by decide, by decide⟩
      (by unfold SameUpToCase; decide)).1 [],
   by decide, by decide⟩

/-- C6: a model entry `doubao/x` with a non-empty key marks both doubao and
volcengine in the model-derived provider set, so VolcEngine is reported
available whatever its legacy key; in the first example scenario with no legacy
providers the keys are exactly doubao and volcengine. -/
theorem doubao_marks_volcengine :
    (∀ (tbl : Char → Char) (cfg : Config) (x key : String), key ≠ "" →
      (⟨"doubao/" ++ x, key⟩ : ModelConfig) ∈ cfg.ModelList →
      mapGet (buildModelProviders tbl cfg.ModelList) "doubao" = true ∧
      mapGet (buildModelProviders tbl cfg.ModelList) "volcengine" = true ∧
      (providerFlags tbl cfg).hasVolcEngine = true) ∧
    (∀ k : String, k ∈ mapKeys (buildModelProviders asciiTable doubaoScenario)
      ↔ k = "doubao" ∨ k = "volcengine") ∧
    (∀ X : Provider, (providerFlags asciiTable ⟨noProviders, doubaoScenario⟩).reported X
      = decide (X = Provider.volcengine)) := by
  refine ⟨?_, ?_, ?_⟩
  · intro tbl cfg x key hkey hmem
    have hd : "doubao" ∈ entryKeys tbl ⟨"doubao/" ++ x, key⟩ := by
      rw [mem_entryKeys]
      exact ⟨hkey, "doubao", lower_doubao tbl x, by decide, Or.inl rfl⟩
    have hv : "volcengine" ∈ entryKeys tbl ⟨"doubao/" ++ x, key⟩ := by
      rw [mem_entryKeys]
      exact ⟨hkey, "doubao", lower_doubao tbl x, by decide, Or.inr (by decide)⟩
    have h1 := (mapGet_build tbl cfg.ModelList "doubao").2 ⟨_, hmem, hd⟩
    have h2 := (mapGet_build tbl cfg.ModelList "volcengine").2 ⟨_, hmem, hv⟩
    refine ⟨h1, h2, ?_⟩
    simp only [providerFlags, h2, Bool.or_true]
  · intro k
    have h : buildModelProviders asciiTable doubaoScenario
        = [("volcengine", true), ("doubao", true)] := by decide
    rw [h]
    simp [mapKeys]
    tauto
  · intro X
    cases X <;> decide

/-- Instance of C6: the entry `doubao/ernie-4` with key `k1` of the first
example scenario, with no legacy provider configured. -/
theorem doubao_marks_volcengine_witness :
    mapGet (buildModelProviders asciiTable doubaoScenario) "doubao" = true ∧
    mapGet (buildModelProviders asciiTable doubaoScenario) "volcengine" = true ∧
    (providerFlags asciiTable ⟨noProviders, doubaoScenario⟩).hasVolcEngine = true :=
  doubao_marks_volcengine.1 asciiTable ⟨noProviders, doubaoScenario⟩ "ernie-4" "k1"
    (by decide) (by decide)

/-- C7: adding a model entry with a non-empty key to a model list, at any
position, keeps every key of the model-derived provider set and keeps every
provider that was reported available. -/
theorem aggregation_monotone (tbl : Char → Char) (providers : ProvidersConfig)
    (front back : List ModelConfig) (e : ModelConfig) (_hkey : e.APIKey ≠ "") :
    (∀ k : String, k ∈ mapKeys (buildModelProviders tbl (front ++ back)) →
      k ∈ mapKeys (buildModelProviders tbl (front ++ e :: back))) ∧
    (∀ X : Provider, (providerFlags tbl ⟨providers, front ++ back⟩).reported X = true →
      (providerFlags tbl ⟨providers, front ++ e :: back⟩).reported X = true) := by
  have hsub : ∀ k : String, (∃ a ∈ front ++ back, k ∈ entryKeys tbl a) →
      ∃ a ∈ front ++ e :: back, k ∈ entryKeys tbl a := by
    rintro k ⟨a, ha, hk⟩
    refine ⟨a, ?_, hk⟩
    rcases List.mem_append.1 ha with h | h
    · exact List.mem_append.2 (Or.inl h)
    · exact List.mem_append.2 (Or.inr (List.mem_cons_of_mem _ h))
  refine ⟨?_, ?_⟩
  · intro k hk
    rw [mem_mapKeys_build] at hk ⊢
    exact hsub k hk
  · intro X hX
    rw [reported_eq, Bool.or_eq_true, decide_eq_true_eq, mapGet_build] at hX ⊢
    rcases hX with h | h
    · exact Or.inl h
    · exact Or.inr (hsub _ h)

/-- Instance of C7: adding `kimi/k2` in front of the second entry of a list
keeps the key doubao and keeps VolcEngine available. -/
theorem aggregation_monotone_witness :
    "doubao" ∈ mapKeys (buildModelProviders asciiTable
      ([⟨"doubao/ernie-4", "k1"⟩] ++ ⟨"kimi/k2", "k3"⟩ :: [⟨"gpt/4o", ""⟩])) ∧
    (providerFlags asciiTable ⟨noProviders,
      [⟨"doubao/ernie-4", "k1"⟩] ++ ⟨"kimi/k2", "k3"⟩ :: [⟨"gpt/4o", ""⟩]⟩).reported
        Provider.volcengine = true :=
  ⟨(aggregation_monotone asciiTable noProviders [⟨"doubao/ernie-4", "k1"⟩] [⟨"gpt/4o", ""⟩]
      ⟨"kimi/k2", "k3"⟩ (by decide)).1 "doubao" (by decide),
   (aggregation_monotone asciiTable noProviders [⟨"doubao/ernie-4", "k1"⟩] [⟨"gpt/4o", ""⟩]
      ⟨"kimi/k2", "k3"⟩ (by decide)).2 Provider.volcengine (by decide)⟩

/-! ## Credential status -/

theorem credentialStatus_authenticated_iff {Cred : Type} (isExpired needsRefresh : Cred → Bool)
    (cred : Cred) :
    credentialStatus isExpired needsRefresh cred = "authenticated"
      ↔ isExpired cred = false ∧ needsRefresh cred = false := by
  unfold credentialStatus
  cases h1 : isExpired cred <;> cases h2 : needsRefresh cred <;> simp

/-- C8: the status of a stored credential is "expired" exactly when `IsExpired`
holds, "needs refresh" exactly when `IsExpired` fails and `NeedsRefresh` holds,
and "authenticated" exactly when both fail; an expired credential is never
reported as "needs refresh", whatever `NeedsRefresh` says. -/
theorem status_checks_expiry_first {Cred : Type} (isExpired needsRefresh : Cred → Bool)
    (cred : Cred) :
    (credentialStatus isExpired needsRefresh cred = "expired" ↔ isExpired cred = true) ∧
    (credentialStatus isExpired needsRefresh cred = "needs refresh"
      ↔ isExpired cred = false ∧ needsRefresh cred = true) ∧
    (credentialStatus isExpired needsRefresh cred = "authenticated"
      ↔ isExpired cred = false ∧ needsRefresh cred = false) ∧
    ¬ (isExpired cred = true ∧ credentialStatus isExpired needsRefresh cred = "needs refresh") := by
  unfold credentialStatus
  cases h1 : isExpired cred <;> cases h2 : needsRefresh cred <;> simp

/-- C9: a stored credential whose auth method is a static API key, for which
expiry and refresh are undefined, is reported as "authenticated" at every clock
reading, never as "expired" and never as "needs refresh". -/
theorem api_key_credential_authenticated (now : Int) (cred : AuthCredential)
    (hm : cred.AuthMethod = AuthMethod.apiKey) (hwf : WellFormed cred) :
    statusAt now cred = "authenticated" ∧
    statusAt now cred ≠ "expired" ∧
    statusAt now cred ≠ "needs refresh" := by
  obtain ⟨he, hr⟩ := hwf hm
  have h : statusAt now cred = "authenticated" := by
    rw [statusAt, credentialStatus_authenticated_iff]
    simp [IsExpired, NeedsRefresh, he, hr, timestampReached]
  rw [h]
  exact ⟨rfl, by decide, by decide⟩

/-- Instance of C9: a static-API-key credential for openai read at clock
reading 1001. -/
theorem api_key_credential_authenticated_witness :
    statusAt 1001 staticKeyCredential = "authenticated" ∧
    statusAt 1001 staticKeyCredential ≠ "expired" ∧
    statusAt 1001 staticKeyCredential ≠ "needs refresh" :=
  api_key_credential_authenticated 1001 staticKeyCredential rfl (fun _ => ⟨rfl, rfl⟩)

theorem timestampReached_mono (ts : Option Int) (t1 t2 : Int) (h : t1 ≤ t2)
    (h1 : timestampReached t1 ts = true) : timestampReached t2 ts = true := by
  cases ts with
  | none => simp [timestampReached] at h1
  | some t =>
    simp only [timestampReached, decide_eq_true_eq] at h1 ⊢
    omega

theorem lifecycleRank_statusAt (now : Int) (cred : AuthCredential) :
    lifecycleRank (statusAt now cred)
      = if IsExpired now cred = true then 2 else if NeedsRefresh now cred = true then 1 else 0 := by
  unfold statusAt credentialStatus
  cases h1 : IsExpired now cred <;> cases h2 : NeedsRefresh now cred <;> simp <;> decide

/-- C10: for a fixed credential the reported status never moves backward in the
order authenticated < needs refresh < expired as the clock advances; and with
expiry `T` and refresh threshold `T - 600` the status is "authenticated" at
`T - 700`, "needs refresh" at `T - 300` and "expired" at `T + 1`. -/
theorem lifecycle_monotone_in_time :
    (∀ (cred : AuthCredential) (t1 t2 : Int), t1 ≤ t2 →
      lifecycleRank (statusAt t1 cred) ≤ lifecycleRank (statusAt t2 cred)) ∧
    (∀ T : Int,
      statusAt (T - 700) (scenarioCredential T) = "authenticated" ∧
      statusAt (T - 300) (scenarioCredential T) = "needs refresh" ∧
      statusAt (T + 1) (scenarioCredential T) = "expired") := by
  refine ⟨?_, ?_⟩
  · intro cred t1 t2 h
    rw [lifecycleRank_statusAt, lifecycleRank_statusAt]
    have he := timestampReached_mono cred.ExpiresAt t1 t2 h
    have hr := timestampReached_mono cred.RefreshAt t1 t2 h
    unfold IsExpired NeedsRefresh
    cases e1 : timestampReached t1 cred.ExpiresAt <;>
      cases r1 : timestampReached t1 cred.RefreshAt <;>
      cases e2 : timestampReached t2 cred.ExpiresAt <;>
      cases r2 : timestampReached t2 cred.RefreshAt <;>
      simp_all
  · intro T
    simp only [statusAt, credentialStatus, IsExpired, NeedsRefresh, scenarioCredential,
      timestampReached]
    refine ⟨?_, ?_, ?_⟩
    · have h1 : ¬ (T ≤ T - 700) := by omega
      have h2 : ¬ (T - 600 ≤ T - 700) := by omega
      simp [h1, h2]
    · have h1 : ¬ (T ≤ T - 300) := by omega
      have h2 : T - 600 ≤ T - 300 := by omega
      simp [h1, h2]
    · have h1 : T ≤ T + 1 := by omega
      simp [h1]

/-- Instance of C10: a credential with expiry 1000 and refresh threshold 400,
read at 300 and then at 700. -/
theorem lifecycle_monotone_in_time_witness :
    (300 : Int) ≤ 700 ∧
    lifecycleRank (statusAt 300 (scenarioCredential 1000))
      ≤ lifecycleRank (statusAt 700 (scenarioCredential 1000)) :=
  ⟨by decide, lifecycle_monotone_in_time.1 (scenarioCredential 1000) 300 700 (by decide)⟩

end PicoClaw
